import Mathlib

/-!
Verification of the pytaxonkit adapter library.

The development shallowly embeds `pytaxonkit.py`.  Python strings are
modelled as `List Char`; the Python string primitives used by the source
(`str.replace` with one-character arguments, `str.split` with a
one-character separator, `str.strip`, `str.join`, `int(...)`) are
reimplemented below with Python's semantics.  The nested JSON tree held by
`ListResult._data` is modelled by the inductive `TaxTree`, whose
`cons key child rest` constructor mirrors one entry of an (ordered) JSON
object followed by its sibling entries.  `json.loads` / `json.dumps(...,
indent=4)` are modelled by an executable parser and serializer over the
object fragment that `taxonkit list --json` emits (objects whose values
are objects; duplicate keys, which Python's `dict` would collapse, are
rejected by the model's `loads`).  Subprocess calls are abstracted by a
`ProcResult` (return code, stdout, stderr) handed to each adapter model;
the adapters' control flow around that call is translated faithfully.
-/

namespace Pytaxonkit

/-- Python strings are modelled as lists of characters. -/
abbrev Str := List Char

/-- Shorthand turning a Lean string literal into the `Str` model. -/
def str (s : String) : Str := s.data

/-- The `{` character (written via its code point). -/
def lbrace : Char := Char.ofNat 123

/-- The `}` character (written via its code point). -/
def rbrace : Char := Char.ofNat 125

/-- Python `str.isspace` characters relevant to `str.strip()`:
space, tab, newline, carriage return, vertical tab, form feed. -/
def isPySpace (c : Char) : Bool :=
  c = ' ' || c = '\t' || c = '\n' || c = '\r' || c = Char.ofNat 11 || c = Char.ofNat 12

/-- Python `s.strip()`: remove leading and trailing whitespace. -/
def pyStrip (l : Str) : Str :=
  ((l.dropWhile isPySpace).reverse.dropWhile isPySpace).reverse

/-- Python `sep.join(parts)`. -/
def pyJoin (sep : Str) : List Str → Str
  | [] => []
  | [x] => x
  | x :: xs => x ++ sep ++ pyJoin sep xs

/-- Python `s.replace(old, new)` for one-character `old` and `new`
(used by the source as `taxonstr.replace("[", "]")`). -/
def pyReplaceChar (old new : Char) (l : Str) : Str :=
  l.map fun c => if c = old then new else c

/-- Python `s.split(sep)` for a one-character separator: split at every
occurrence of `sep`, keeping empty parts, so `n` occurrences give
`n + 1` parts. -/
def pySplit (sep : Char) : Str → List Str
  | [] => [[]]
  | c :: rest =>
    match pySplit sep rest with
    | [] => [[]]
    | p :: ps => if c = sep then [] :: p :: ps else (c :: p) :: ps

/-- Value of a nonempty all-digit character list, most significant first. -/
def digitsVal? (l : List Char) : Option Nat :=
  if l ≠ [] ∧ l.all (·.isDigit) then
    some (l.foldl (fun a c => a * 10 + (c.toNat - 48)) 0)
  else none

/-- Python `int(s)` on a string: surrounding whitespace is ignored, an
optional sign is allowed, and the rest must be a nonempty digit string;
otherwise a `ValueError` is raised, modelled as `none`.  (Underscore
digit grouping, accepted by Python 3.6+, is not modelled; taxonkit taxids
never contain it.) -/
def pyInt? (s : Str) : Option Int :=
  match pyStrip s with
  | '+' :: rest => (digitsVal? rest).map fun n => (n : Int)
  | '-' :: rest => (digitsVal? rest).map fun n => -(n : Int)
  | l => (digitsVal? l).map fun n => (n : Int)

/-- The `BasicTaxon` namedtuple: `taxid` (an `int`), `rank`, `name`. -/
structure BasicTaxon where
  taxid : Int
  rank : Str
  name : Str
deriving DecidableEq

/-- Parsing of one composite key, as done identically in
`ListResult.__iter__` and `ListResult._do_traverse`:
`taxid, rank, name = taxonstr.replace("[", "]").split("]")` followed by
`BasicTaxon(taxid=int(taxid.strip()), rank=rank, name=name.strip())`.
The three-way unpacking raises (`none`) unless the split yields exactly
three parts; `int` raises (`none`) on a non-numeric leading part. -/
def parseTaxon (taxonstr : Str) : Option BasicTaxon :=
  match pySplit ']' (pyReplaceChar '[' ']' taxonstr) with
  | [t, r, n] => (pyInt? (pyStrip t)).map fun i =>
      { taxid := i, rank := r, name := pyStrip n }
  | _ => none

/-- The nested JSON object wrapped by `ListResult`: an ordered mapping
from composite key strings to child trees.  `nil` is the empty object;
`cons key child rest` is the entry `key: child` followed by the
remaining entries `rest` of the same object. -/
inductive TaxTree where
  | nil : TaxTree
  | cons (key : Str) (child : TaxTree) (rest : TaxTree) : TaxTree
deriving DecidableEq

/-- Python `len` of the object's top-level mapping (`ListResult.__len__`). -/
def topLength : TaxTree → Nat
  | .nil => 0
  | .cons _ _ rest => topLength rest + 1

/-- The list of top-level keys of the mapping, in order. -/
def topKeys : TaxTree → List Str
  | .nil => []
  | .cons k _ rest => k :: topKeys rest

/-- Total number of entries in the tree: top-level entries plus all
nested entries, recursively. -/
def size : TaxTree → Nat
  | .nil => 0
  | .cons _ child rest => 1 + size child + size rest

/-- Number of entries anywhere in the tree whose composite key parses to
the given taxon. -/
def countTaxon (tx : BasicTaxon) : TaxTree → Nat
  | .nil => 0
  | .cons k child rest =>
    (if parseTaxon k = some tx then 1 else 0) + countTaxon tx child + countTaxon tx rest

/-- `ListResult._do_traverse`: for each entry of the mapping, parse its
composite key, yield the taxon, and, when the child mapping is nonempty,
recursively yield the child's taxa, before moving to the next entry.
The generator is modelled by the list of all yielded taxa; a parsing
failure anywhere (which would raise mid-iteration in Python) makes the
whole result `none`. -/
def doTraverse : TaxTree → Option (List BasicTaxon)
  | .nil => some []
  | .cons k child rest => do
    let tx ← parseTaxon k
    let sub ← if 0 < topLength child then doTraverse child else some []
    let sibs ← doTraverse rest
    some (tx :: (sub ++ sibs))

/-! ### The JSON codec model

`ListResult.__init__` calls `json.loads` and `ListResult.__str__` calls
`json.dumps(self._data, indent=4)`.  Both are modelled over the object
fragment actually produced by `taxonkit list --json`: objects whose
values are objects.  The serializer follows Python's `indent=4` layout
(each entry on its own line, keys indented four spaces per level, `": "`
between key and value, `,` between entries, the closing brace on the
parent's level); string escaping covers quote, backslash and control
characters (control characters not among `\n`, `\t`, `\r` via `\u00XX`).
The parser accepts the full escape repertoire of `json.loads`
(including `\uXXXX`), skips arbitrary whitespace between tokens, rejects
raw control characters inside strings and rejects trailing garbage.
Duplicate keys within one object — which Python's `dict` would collapse,
and which taxonkit never emits — are rejected rather than collapsed. -/

/-- JSON whitespace accepted between tokens by `json.loads`. -/
def isJsonWs (c : Char) : Bool :=
  c = ' ' || c = '\t' || c = '\n' || c = '\r'

/-- Skip JSON whitespace. -/
def skipWs : Str → Str := List.dropWhile isJsonWs

/-- Value of one hexadecimal digit. -/
def hexDigitVal (c : Char) : Option Nat :=
  if '0' ≤ c ∧ c ≤ '9' then some (c.toNat - 48)
  else if 'a' ≤ c ∧ c ≤ 'f' then some (c.toNat - 87)
  else if 'A' ≤ c ∧ c ≤ 'F' then some (c.toNat - 55)
  else none

/-- Value of a four-hexadecimal-digit escape body. -/
def hexVal4 (h1 h2 h3 h4 : Char) : Option Nat := do
  let v1 ← hexDigitVal h1
  let v2 ← hexDigitVal h2
  let v3 ← hexDigitVal h3
  let v4 ← hexDigitVal h4
  some (((v1 * 16 + v2) * 16 + v3) * 16 + v4)

/-- Lower-case hexadecimal digit for a value below 16. -/
def toHexDigit (n : Nat) : Char :=
  if n < 10 then Char.ofNat (48 + n) else Char.ofNat (87 + n)

/-- Single-character escapes understood by `json.loads` after a backslash. -/
def escChar (e : Char) : Option Char :=
  if e = '"' then some '"'
  else if e = '\\' then some '\\'
  else if e = '/' then some '/'
  else if e = 'n' then some '\n'
  else if e = 't' then some '\t'
  else if e = 'r' then some '\r'
  else if e = 'b' then some (Char.ofNat 8)
  else if e = 'f' then some (Char.ofNat 12)
  else none

/-- Serialization of one string character by the `json.dumps` model:
quote and backslash are escaped, `\n`, `\t`, `\r` use their short
escapes, any other control character uses `\u00XX`, and everything else
is emitted verbatim. -/
def encChar (c : Char) : Str :=
  if c = '"' then ['\\', '"']
  else if c = '\\' then ['\\', '\\']
  else if c = '\n' then ['\\', 'n']
  else if c = '\t' then ['\\', 't']
  else if c = '\r' then ['\\', 'r']
  else if c.toNat < 32 then
    ['\\', 'u', '0', '0', toHexDigit (c.toNat / 16), toHexDigit (c.toNat % 16)]
  else [c]

/-- Serialization of a whole string body. -/
def encStr (s : Str) : Str := s.flatMap encChar

/-- Serialization of an object key, quotes included. -/
def dumpKey (k : Str) : Str := '"' :: (encStr k ++ ['"'])

/-- Prepend a character to the string built by a string-body parse. -/
def consStr (c : Char) : Option (Str × Str) → Option (Str × Str)
  | some (s, rest) => some (c :: s, rest)
  | none => none

/-- Parse a string body after its opening quote, handling every escape
`json.loads` accepts and rejecting raw control characters, lone
backslashes and unterminated strings.  Returns the decoded string and
the input after the closing quote. -/
def parseStrBody : Str → Option (Str × Str)
  | [] => none
  | c :: rest =>
    if c = '"' then some ([], rest)
    else if c = '\\' then
      match rest with
      | [] => none
      | e :: rest2 =>
        if e = 'u' then
          match rest2 with
          | h1 :: h2 :: h3 :: h4 :: rest3 =>
            match hexVal4 h1 h2 h3 h4 with
            | some n => consStr (Char.ofNat n) (parseStrBody rest3)
            | none => none
          | _ => none
        else
          match escChar e with
          | some ch => consStr ch (parseStrBody rest2)
          | none => none
    else if c.toNat < 32 then none
    else consStr c (parseStrBody rest)

/-- Indentation: `n` spaces. -/
def nspaces (n : Nat) : Str := List.replicate n ' '

/-- Serialization of the entries of a nonempty object at indentation
level `lvl` under `indent=4`: each entry is `4*lvl` spaces, the quoted
key, `": "`, then the child value (`{}` inline when empty, otherwise a
brace block whose entries sit one level deeper and whose closing brace
returns to this entry's level), with `,` and a newline between entries. -/
def dumpsItems (lvl : Nat) : TaxTree → Str
  | .nil => []
  | .cons k child rest =>
    nspaces (4 * lvl) ++ dumpKey k ++ ':' :: ' ' ::
      ((match child with
        | .nil => [lbrace, rbrace]
        | c => lbrace :: '\n' :: (dumpsItems (lvl + 1) c ++ '\n' :: (nspaces (4 * lvl) ++ [rbrace]))) ++
       (match rest with
        | .nil => []
        | r => ',' :: '\n' :: dumpsItems lvl r))

/-- Serialization of a tree value at indentation level `lvl`. -/
def dumpsValAt (lvl : Nat) : TaxTree → Str
  | .nil => [lbrace, rbrace]
  | t => lbrace :: '\n' :: (dumpsItems (lvl + 1) t ++ '\n' :: (nspaces (4 * lvl) ++ [rbrace]))

/-- The `json.dumps(data, indent=4)` model: serialization of the whole
tree at level zero. -/
def dumps (t : TaxTree) : Str := dumpsValAt 0 t

mutual

/-- Parse one object value: optional whitespace, `{`, then either a
closing `}` (empty object) or the member list.  `fuel` only bounds the
recursion; `loads` supplies enough for any input. -/
def parseVal (fuel : Nat) (l : Str) : Option (TaxTree × Str) :=
  match fuel with
  | 0 => none
  | fuel + 1 =>
    match skipWs l with
    | [] => none
    | c :: rest =>
      if c = lbrace then
        match skipWs rest with
        | [] => none
        | d :: rest2 => if d = rbrace then some (.nil, rest2) else parseMems fuel rest
      else none

/-- Parse the members of an object after its opening brace, consuming
the closing brace: a quoted key, `:`, a value, then either `,` and the
remaining members or `}`. -/
def parseMems (fuel : Nat) (l : Str) : Option (TaxTree × Str) :=
  match fuel with
  | 0 => none
  | fuel + 1 =>
    match skipWs l with
    | [] => none
    | c :: rest =>
      if c = '"' then
        match parseStrBody rest with
        | none => none
        | some (k, rest2) =>
          match skipWs rest2 with
          | [] => none
          | d :: rest3 =>
            if d = ':' then
              match parseVal fuel rest3 with
              | none => none
              | some (v, rest4) =>
                match skipWs rest4 with
                | [] => none
                | e :: rest5 =>
                  if e = ',' then
                    match parseMems fuel rest5 with
                    | some (t, rest6) => some (.cons k v t, rest6)
                    | none => none
                  else if e = rbrace then some (.cons k v .nil, rest5)
                  else none
            else none
      else none

end

/-- Keys are distinct within every object of the tree. -/
def treeNodup : TaxTree → Bool
  | .nil => true
  | .cons k child rest =>
    !(topKeys rest).contains k && treeNodup child && treeNodup rest

/-- The `json.loads` model over the object-of-objects fragment: parse
one value, reject trailing non-whitespace, and reject duplicate keys
(outside the fragment on which the model is faithful to Python). -/
def loads (s : Str) : Option TaxTree :=
  match parseVal (s.length + 1) s with
  | some (t, rest) => if skipWs rest = [] ∧ treeNodup t then some t else none
  | none => none

/-- `ListResult`: wraps the parsed JSON payload. -/
structure ListResult where
  _data : TaxTree
deriving DecidableEq

/-- `ListResult.__init__`: `self._data = json.loads(jsondata)`; a
malformed payload raises the JSON library's parsing error (`none`). -/
def ListResult.init? (jsondata : Str) : Option ListResult :=
  (loads jsondata).map ListResult.mk

/-- `ListResult.__len__`: `len(self._data)`. -/
def ListResult.len (r : ListResult) : Nat := topLength r._data

/-- `ListResult.__str__`: `json.dumps(self._data, indent=4)`.  A pure
function of the wrapped data. -/
def ListResult.toString (r : ListResult) : Str := dumps r._data

/-- `ListResult.traverse`: yields `_do_traverse(self._data)`. -/
def ListResult.traverse (r : ListResult) : Option (List BasicTaxon) :=
  doTraverse r._data

/-! ### The adapter models

Each public adapter builds an input string from its identifiers, returns
early (with a `UserWarning` and `None`) when that string is empty,
otherwise runs the external `taxonkit` subprocess and post-processes its
output.  The subprocess itself is outside the program: it is abstracted
as a `ProcResult` (return code, stdout text, stderr text) passed to the
model, and the argument-list construction, which only feeds that
subprocess, is elided.  The control flow around the call — empty-input
early return, argument validation, return-code checks and output
parsing — is translated from the source.  `invoked` counts how many
subprocesses the call starts before returning. -/

/-- Result of one `Popen(...).communicate()` round, as seen by the
adapter: the process's return code, stdout and stderr text. -/
structure ProcResult where
  returncode : Int
  stdout : Str
  stderr : Str
deriving DecidableEq

/-- Outcome of an adapter call.  `noneReturn` is the warn-and-return-`None`
path for empty input; `cliError` is `raise TaxonKitCLIError(err)`;
`dumpNotFound` is `raise NCBITaxonomyDumpNotFoundError(path)`;
`valueError` is `raise ValueError(msg)`; `parseFailure` covers
exceptions escaping from output post-processing (JSON errors, unpacking
errors, `int` errors, a failed `assert`). -/
inductive PyOutcome (α : Type) where
  | ok : α → PyOutcome α
  | noneReturn : PyOutcome α
  | cliError : Str → PyOutcome α
  | dumpNotFound : Str → PyOutcome α
  | valueError : Str → PyOutcome α
  | parseFailure : PyOutcome α
deriving DecidableEq

/-- One adapter call: how many subprocesses were started, and the
returned value or raised exception. -/
structure AdapterRun (α : Type) where
  invoked : Nat
  outcome : PyOutcome α
deriving DecidableEq

/-- Python truthiness of an optional-string argument: `None` and the
empty string are falsy. -/
def pyTruthy : Option Str → Bool
  | none => false
  | some l => l ≠ []

/-- The filesystem, as the three calls `validate_data_dir` makes:
`os.path.isfile`, `os.stat(...).st_size` and `os.path.realpath`. -/
structure FileSystem where
  isfile : Str → Bool
  st_size : Str → Nat
  realpath : Str → Str

/-- Python `os.path.join(a, b)` for a relative `b`. -/
def osPathJoin (a b : Str) : Str :=
  if a = [] then b
  else if a.getLast? = some '/' then a ++ b
  else a ++ '/' :: b

/-- `validate_data_dir(path)`: require `nodes.dmp` inside `path` to be a
file of nonzero size, raising `NCBITaxonomyDumpNotFoundError(path)`
otherwise, and return `os.path.realpath(path)` on success. -/
def validate_data_dir (fs : FileSystem) (path : Str) : Except Str Str :=
  let filepath := osPathJoin path (str "nodes.dmp")
  if fs.isfile filepath = false ∨ fs.st_size filepath = 0 then .error path
  else .ok (fs.realpath path)

/-- Continuation of `pytaxonkit.list` after the argument list is built:
run the subprocess, raise `TaxonKitCLIError(err)` on a nonzero return
code, and otherwise build a `ListResult` from stdout (the default
`raw=False` path). -/
def listRun (proc : ProcResult) : AdapterRun ListResult :=
  if proc.returncode ≠ 0 then ⟨1, .cliError proc.stderr⟩
  else
    match ListResult.init? proc.stdout with
    | some r => ⟨1, .ok r⟩
    | none => ⟨1, .parseFailure⟩

/-- `pytaxonkit.list(ids, data_dir=...)`: join the identifiers with
commas; warn and return `None` when that string is empty; validate a
truthy `data_dir` while building the argument list (so a failing
validation raises before any subprocess starts); then run. -/
def list_adapter (ids : List Str) (data_dir : Option Str) (fs : FileSystem)
    (proc : ProcResult) : AdapterRun ListResult :=
  let idlist := pyJoin [','] ids
  if idlist = [] then ⟨0, .noneReturn⟩
  else if pyTruthy data_dir then
    match validate_data_dir fs (data_dir.getD []) with
    | .error p => ⟨0, .dumpNotFound p⟩
    | .ok _ => listRun proc
  else listRun proc

/-- `pytaxonkit.lineage(ids)`: join the identifiers with newlines; warn
and return `None` when empty; run `taxonkit lineage`, raising on a
nonzero return code; then run `taxonkit reformat2`, raising on a
nonzero return code; finally hand the second stdout to the tabular
reader (the `DataFrame` itself is abstracted as that text). -/
def lineage_adapter (ids : List Str) (proc1 proc2 : ProcResult) : AdapterRun Str :=
  let idlist := pyJoin ['\n'] ids
  if idlist = [] then ⟨0, .noneReturn⟩
  else if proc1.returncode ≠ 0 then ⟨1, .cliError proc1.stderr⟩
  else if proc2.returncode ≠ 0 then ⟨2, .cliError proc2.stderr⟩
  else ⟨2, .ok proc2.stdout⟩

/-- `pytaxonkit.name(ids)`: join the identifiers with newlines plus a
trailing newline; warn and return `None` when only that newline
remains; then run the subprocess and hand stdout straight to the
tabular reader — the source never inspects the return code. -/
def name_adapter (ids : List Str) (proc : ProcResult) : AdapterRun Str :=
  let idlist := pyJoin ['\n'] ids ++ ['\n']
  if idlist = ['\n'] then ⟨0, .noneReturn⟩
  else ⟨1, .ok proc.stdout⟩

/-- `pytaxonkit.name2taxid(names)`: join the names with newlines; warn
and return `None` when empty; raise on a nonzero return code; otherwise
hand stdout to the tabular reader. -/
def name2taxid_adapter (names : List Str) (proc : ProcResult) : AdapterRun Str :=
  let namelist := pyJoin ['\n'] names
  if namelist = [] then ⟨0, .noneReturn⟩
  else if proc.returncode ≠ 0 then ⟨1, .cliError proc.stderr⟩
  else ⟨1, .ok proc.stdout⟩

/-- `pytaxonkit.filter(ids, higher_than=..., lower_than=...)`: first, if
both rank bounds are given (`is not None`), raise `ValueError` — before
the identifier list is even joined; then the empty-input early return;
then run the subprocess and hand stdout to the tabular reader — the
source never inspects the return code. -/
def filter_adapter (ids : List Str) (higher_than lower_than : Option Str)
    (proc : ProcResult) : AdapterRun Str :=
  if higher_than.isSome ∧ lower_than.isSome then
    ⟨0, .valueError (str "cannot specify \"higher_than\" and \"lower_than\" simultaneously")⟩
  else
    let idlist := pyJoin ['\n'] ids
    if idlist = [] then ⟨0, .noneReturn⟩
    else ⟨1, .ok proc.stdout⟩

/-- Input to `pytaxonkit.lca`: a single query (a list of taxids) by
default, or a list of queries when `multi=True`. -/
inductive LcaIds where
  | single : List Str → LcaIds
  | multi : List (List Str) → LcaIds
deriving DecidableEq

/-- The input text `pytaxonkit.lca` streams to the subprocess: queries
joined with newlines, taxids within a query joined with spaces. -/
def lcaIdString : LcaIds → Str
  | .single l => pyJoin [' '] l
  | .multi ls => pyJoin ['\n'] (ls.map (pyJoin [' ']))

/-- Value returned by `pytaxonkit.lca`: `None`, `[None] * n`, a single
taxid, or a list of taxids. -/
inductive LcaReturn where
  | noneV : LcaReturn
  | listNone : Nat → LcaReturn
  | intV : Int → LcaReturn
  | listInts : List Int → LcaReturn
deriving DecidableEq

/-- One output line of `taxonkit lca`:
`queries, lcataxid = line.split("\t")` then `int(lcataxid)`; the
two-way unpacking raises unless the line has exactly two tab-separated
fields. -/
def parseLcaLine (line : Str) : Option Int :=
  match pySplit '\t' line with
  | [_, lcataxid] => pyInt? lcataxid
  | _ => none

/-- `pytaxonkit.lca(ids, multi=...)`: warn and return `None` when the
input text is empty; raise on a nonzero return code; when stdout strips
to empty return `None` (or `[None]` per query under `multi`); otherwise
take the integer second field of each stripped stdout line, returning
the list under `multi` and, after `assert len(results) == 1`, the single
integer otherwise. -/
def lca_adapter (ids : LcaIds) (proc : ProcResult) : AdapterRun LcaReturn :=
  let idstring := lcaIdString ids
  if idstring = [] then ⟨0, .noneReturn⟩
  else if proc.returncode ≠ 0 then ⟨1, .cliError proc.stderr⟩
  else if pyStrip proc.stdout = [] then
    match ids with
    | .multi ls => ⟨1, .ok (.listNone ls.length)⟩
    | .single _ => ⟨1, .ok .noneV⟩
  else
    match (pySplit '\n' (pyStrip proc.stdout)).mapM parseLcaLine with
    | none => ⟨1, .parseFailure⟩
    | some results =>
      match ids with
      | .multi _ => ⟨1, .ok (.listInts results)⟩
      | .single _ =>
        match results with
        | [r] => ⟨1, .ok (.intV r)⟩
        | _ => ⟨1, .parseFailure⟩

/-- The separator-and-continuation part of one serialized entry: empty
after the last entry of an object, otherwise a comma, a newline and the
remaining entries. -/
def dumpsSep (lvl : Nat) : TaxTree → Str
  | .nil => []
  | r => ',' :: '\n' :: dumpsItems lvl r

/-- A filesystem with no files, used to exercise the adapters on paths
whose validation fails. -/
def fsEmpty : FileSystem :=
  { isfile := fun _ => false, st_size := fun _ => 0, realpath := fun p => p }

/-- The three-level nested tree from the `taxonkit list` documentation
example (genus, subgenus, species). -/
def apogonTree : TaxTree :=
  .cons (str "83882 [genus] Apogon")
    (.cons (str "638272 [subgenus] Apogon")
      (.cons (str "308069 [species] Apogon maculatus") .nil .nil) .nil) .nil

/-- The pre-order taxon sequence of `apogonTree`. -/
def apogonTaxa : List BasicTaxon :=
  [{ taxid := 83882, rank := str "genus", name := str "Apogon" },
   { taxid := 638272, rank := str "subgenus", name := str "Apogon" },
   { taxid := 308069, rank := str "species", name := str "Apogon maculatus" }]

/-- A one-entry JSON object text used by concrete witnesses. -/
def jsonOne : Str :=
  lbrace :: '"' :: (str "1 [a] b" ++ '"' :: ':' :: ' ' :: lbrace :: rbrace :: [rbrace])

/-- The tree denoted by `jsonOne`. -/
def treeOne : TaxTree := .cons (str "1 [a] b") .nil .nil

/-! ### Lemmas about the Python string primitives -/

theorem pySplit_ne_nil (sep : Char) (l : Str) : pySplit sep l ≠ [] := by
  cases l with
  | nil => simp [pySplit]
  | cons c rest =>
    simp only [pySplit]
    cases h : pySplit sep rest with
    | nil => simp
    | cons p ps => by_cases hcs : c = sep <;> simp [hcs]

theorem pySplit_sep_cons (sep : Char) (l : Str) :
    pySplit sep (sep :: l) = [] :: pySplit sep l := by
  simp only [pySplit]
  cases h : pySplit sep l with
  | nil => exact absurd h (pySplit_ne_nil sep l)
  | cons p ps => simp

theorem pySplit_cons_ne {sep c : Char} (l : Str) (h : c ≠ sep) :
    pySplit sep (c :: l) = (pySplit sep l).modifyHead (c :: ·) := by
  simp only [pySplit]
  cases hs : pySplit sep l with
  | nil => exact absurd hs (pySplit_ne_nil sep l)
  | cons p ps => simp [h]

theorem pySplit_append_no_sep {sep : Char} (a l : Str) (h : sep ∉ a) :
    pySplit sep (a ++ l) = (pySplit sep l).modifyHead (a ++ ·) := by
  induction a with
  | nil =>
    cases hs : pySplit sep l with
    | nil => exact absurd hs (pySplit_ne_nil sep l)
    | cons p ps => simp [hs]
  | cons c a ih =>
    simp only [List.mem_cons, not_or] at h
    have hc : c ≠ sep := fun hh => h.1 hh.symm
    rw [List.cons_append, pySplit_cons_ne _ hc, ih h.2]
    cases hs : pySplit sep l with
    | nil => exact absurd hs (pySplit_ne_nil sep l)
    | cons p ps => simp

theorem pySplit_single {sep : Char} (l : Str) (h : sep ∉ l) :
    pySplit sep l = [l] := by
  have := pySplit_append_no_sep l [] h
  simpa [pySplit] using this

theorem pySplit_three {a b c : Str} (ha : ']' ∉ a) (hb : ']' ∉ b) (hc : ']' ∉ c) :
    pySplit ']' (a ++ ']' :: (b ++ ']' :: c)) = [a, b, c] := by
  rw [pySplit_append_no_sep _ _ ha, pySplit_sep_cons, pySplit_append_no_sep _ _ hb,
    pySplit_sep_cons, pySplit_single c hc]
  simp

theorem pySplit_length (sep : Char) (l : Str) :
    (pySplit sep l).length = l.count sep + 1 := by
  induction l with
  | nil => simp [pySplit]
  | cons c rest ih =>
    by_cases h : c = sep
    · subst h
      rw [pySplit_sep_cons]
      simp [ih, List.count_cons]
    · rw [pySplit_cons_ne _ h]
      simp [ih, List.count_cons, h]

theorem pyReplace_no_bracket (l : Str) (h : '[' ∉ l) :
    pyReplaceChar '[' ']' l = l := by
  induction l with
  | nil => rfl
  | cons c rest ih =>
    simp only [List.mem_cons, not_or] at h
    have hc : c ≠ '[' := fun hh => h.1 hh.symm
    have hr := ih h.2
    simp only [pyReplaceChar, List.map_cons] at hr ⊢
    rw [if_neg hc, hr]

theorem count_pyReplace (l : Str) :
    (pyReplaceChar '[' ']' l).count ']' = l.count '[' + l.count ']' := by
  induction l with
  | nil => simp [pyReplaceChar]
  | cons c rest ih =>
    simp only [pyReplaceChar, List.map_cons] at ih ⊢
    by_cases h : c = '['
    · simp only [h, if_pos rfl, List.count_cons, ih]
      simp
      omega
    · by_cases h2 : c = ']'
      · simp only [if_neg h, List.count_cons, ih, h2]
        simp
        omega
      · simp only [if_neg h, List.count_cons, ih]
        simp [h, h2]

/-! ### C2: composite-key parsing -/

/-- C2: a composite key of the form `"<taxid> [<rank>] <name>"` with a
single bracket pair is parsed by replacing `[` with `]` and splitting on
`]` into exactly three parts; the taxid is Python `int` of the trimmed
leading part (`none`, a `ValueError`, when non-numeric), the rank is the
middle part verbatim, and the name is the trailing part trimmed.  In
particular `"9606 [species] Homo sapiens"` parses to taxid `9606`, rank
`"species"`, name `"Homo sapiens"`. -/
theorem composite_key_parsing :
    (∀ a b c : Str, '[' ∉ a → ']' ∉ a → '[' ∉ b → ']' ∉ b → '[' ∉ c → ']' ∉ c →
      pySplit ']' (pyReplaceChar '[' ']' (a ++ '[' :: (b ++ ']' :: c))) = [a, b, c] ∧
      parseTaxon (a ++ '[' :: (b ++ ']' :: c)) =
        (pyInt? (pyStrip a)).map fun i => { taxid := i, rank := b, name := pyStrip c }) ∧
    parseTaxon (str "9606 [species] Homo sapiens") =
      some { taxid := 9606, rank := str "species", name := str "Homo sapiens" } := by
  constructor
  · intro a b c ha1 ha2 hb1 hb2 hc1 hc2
    have hrepl : pyReplaceChar '[' ']' (a ++ '[' :: (b ++ ']' :: c)) =
        a ++ ']' :: (b ++ ']' :: c) := by
      simp only [pyReplaceChar, List.map_append, List.map_cons]
      rw [← pyReplaceChar, ← pyReplaceChar, ← pyReplaceChar,
        pyReplace_no_bracket a ha1, pyReplace_no_bracket b hb1, pyReplace_no_bracket c hc1]
      simp
    have hsplit : pySplit ']' (pyReplaceChar '[' ']' (a ++ '[' :: (b ++ ']' :: c))) =
        [a, b, c] := by
      rw [hrepl]
      exact pySplit_three ha2 hb2 hc2
    refine ⟨hsplit, ?_⟩
    simp only [parseTaxon, hsplit]
  · decide

/-- Witness for C2 at the key `"12 [genus] Homo"` split as
`"12 " ++ "[" ++ "genus" ++ "]" ++ " Homo"`. -/
theorem composite_key_parsing_witness :
    pySplit ']' (pyReplaceChar '[' ']' (str "12 " ++ '[' :: (str "genus" ++ ']' :: str " Homo"))) =
      [str "12 ", str "genus", str " Homo"] ∧
    parseTaxon (str "12 " ++ '[' :: (str "genus" ++ ']' :: str " Homo")) =
      (pyInt? (pyStrip (str "12 "))).map fun i =>
        { taxid := i, rank := str "genus", name := pyStrip (str " Homo") } :=
  composite_key_parsing.1 (str "12 ") (str "genus") (str " Homo")
    (by decide) (by decide) (by decide) (by decide) (by decide) (by decide)

/-! ### C3: extra brackets in the name -/

/-- C3 is false on the code: for a key whose name part contains an extra
bracket pair, the split is not restricted to the first two bracket
occurrences — `str.split` splits at every occurrence, the three-way
unpacking gets five parts, and parsing raises instead of succeeding. -/
theorem extra_brackets_not_tolerated : parseTaxon (str "1 [a] b[c]") = none := by
  decide

/-- C3 amended: whenever a composite key contains more than two bracket
characters in total, the replace-then-split yields more than three
parts, so the three-way unpacking — and hence parsing — fails. -/
theorem extra_brackets_error (k : Str) (h : 2 < k.count '[' + k.count ']') :
    parseTaxon k = none := by
  have hlen := pySplit_length ']' (pyReplaceChar '[' ']' k)
  rw [count_pyReplace] at hlen
  simp only [parseTaxon]
  split
  · rename_i t r n heq
    rw [heq] at hlen
    simp at hlen
    omega
  · rfl

/-- Witness for the amended C3 at the key `"1 [a] b[c]"`. -/
theorem extra_brackets_error_witness :
    2 < (str "1 [a] b[c]").count '[' + (str "1 [a] b[c]").count ']' ∧
    parseTaxon (str "1 [a] b[c]") = none :=
  ⟨by decide, extra_brackets_error (str "1 [a] b[c]") (by decide)⟩

/-! ### C1: pre-order traversal -/

theorem topLength_eq_zero {t : TaxTree} (h : ¬0 < topLength t) : t = .nil := by
  cases t with
  | nil => rfl
  | cons k c r => simp [topLength] at h

theorem doTraverse_cons (k : Str) (child rest : TaxTree) :
    doTraverse (.cons k child rest) =
      (parseTaxon k).bind fun tx =>
        (doTraverse child).bind fun sub =>
          (doTraverse rest).bind fun sibs => some (tx :: (sub ++ sibs)) := by
  by_cases h : 0 < topLength child
  · simp [doTraverse, h]
  · rw [topLength_eq_zero h]
    simp [doTraverse, topLength]

theorem doTraverse_tree_spec (t : TaxTree) :
    ∀ taxa, doTraverse t = some taxa →
      taxa.length = size t ∧ ∀ tx, taxa.count tx = countTaxon tx t := by
  induction t with
  | nil =>
    intro taxa h
    simp [doTraverse] at h
    subst h
    simp [size, countTaxon]
  | cons k child rest ihc ihr =>
    intro taxa h
    rw [doTraverse_cons] at h
    cases hk : parseTaxon k with
    | none => rw [hk] at h; simp at h
    | some tx0 =>
      rw [hk] at h
      simp only [Option.some_bind] at h
      cases hc : doTraverse child with
      | none => rw [hc] at h; simp at h
      | some sub =>
        rw [hc] at h
        simp only [Option.some_bind] at h
        cases hr : doTraverse rest with
        | none => rw [hr] at h; simp at h
        | some sibs =>
          rw [hr] at h
          simp only [Option.some_bind, Option.some_inj] at h
          subst h
          obtain ⟨hlc, hcc⟩ := ihc sub hc
          obtain ⟨hlr, hcr⟩ := ihr sibs hr
          constructor
          · simp [size, hlc, hlr]
            omega
          · intro tx
            simp only [countTaxon, List.count_cons, List.count_append, hcc, hcr, hk,
              Option.some_inj]
            by_cases he : tx0 = tx
            · simp [he]
              try omega
            · have he2 : ¬(tx = tx0) := fun hh => he hh.symm
              simp [he, he2]
              try omega

/-- C1: whenever `traverse` completes (every composite key parses), it
yields exactly `size` taxa — one per entry of the tree, root-level plus
nested, recursively; each taxon is yielded exactly as many times as
entries parse to it (so exactly once for every taxon of the tree when
entries are distinct); and for a nonempty mapping the sequence is the
head entry's taxon, then the full traversal of that entry's subtree,
then the full traversal of the remaining sibling entries — the
depth-first pre-order in which a taxon precedes all of its descendants
and siblings' descendants are not interleaved. -/
theorem traverse_preorder (r : ListResult) (taxa : List BasicTaxon)
    (h : r.traverse = some taxa) :
    taxa.length = size r._data ∧
    (∀ tx, taxa.count tx = countTaxon tx r._data) ∧
    (∀ k child rest, r._data = .cons k child rest →
      ∃ tx sub sibs, parseTaxon k = some tx ∧ doTraverse child = some sub ∧
        doTraverse rest = some sibs ∧ taxa = tx :: (sub ++ sibs)) := by
  have hspec := doTraverse_tree_spec r._data taxa h
  refine ⟨hspec.1, hspec.2, ?_⟩
  intro k child rest hdata
  have h2 : doTraverse (.cons k child rest) = some taxa := by
    rw [← hdata]
    exact h
  rw [doTraverse_cons] at h2
  cases hk : parseTaxon k with
  | none => rw [hk] at h2; simp at h2
  | some tx0 =>
    rw [hk] at h2
    simp only [Option.some_bind] at h2
    cases hc : doTraverse child with
    | none => rw [hc] at h2; simp at h2
    | some sub =>
      rw [hc] at h2
      simp only [Option.some_bind] at h2
      cases hr : doTraverse rest with
      | none => rw [hr] at h2; simp at h2
      | some sibs =>
        rw [hr] at h2
        simp only [Option.some_bind, Option.some_inj] at h2
        exact ⟨tx0, sub, sibs, rfl, rfl, rfl, h2.symm⟩

/-- Witness for C1 on the three-level Apogon tree: traversal succeeds
and yields as many taxa as the tree has entries. -/
theorem traverse_preorder_witness :
    ListResult.traverse ⟨apogonTree⟩ = some apogonTaxa ∧
    apogonTaxa.length = size apogonTree :=
  ⟨by decide, (traverse_preorder ⟨apogonTree⟩ apogonTaxa (by decide)).1⟩

/-! ### C7: length of the top-level mapping -/

theorem topKeys_length (t : TaxTree) : (topKeys t).length = topLength t := by
  induction t with
  | nil => rfl
  | cons k c r ihc ihr =>
    simp [topKeys, topLength]
    exact ihr

/-- C7: on any tree built from valid JSON, `__len__` returns the number
of top-level keys of the input mapping; it is a total function (no
error path) and returns zero for an empty mapping. -/
theorem len_counts_top_level (T : Str) (r : ListResult)
    (_h : ListResult.init? T = some r) :
    r.len = (topKeys r._data).length ∧ (r._data = .nil → r.len = 0) := by
  constructor
  · rw [ListResult.len, topKeys_length]
  · intro hnil
    rw [ListResult.len, hnil]
    rfl

/-- Witness for C7 on the empty JSON object. -/
theorem len_counts_top_level_witness :
    ListResult.init? [lbrace, rbrace] = some ⟨.nil⟩ ∧
    (ListResult.mk .nil).len = (topKeys TaxTree.nil).length :=
  ⟨by decide, (len_counts_top_level [lbrace, rbrace] ⟨.nil⟩ (by decide)).1⟩

/-! ### C4: return-code handling across the adapters -/

/-- C4 fails on the code: with input `["9606"]` and a subprocess that
exits with status 1 and stderr `"boom"`, the `name` and `filter`
adapters do not raise the external-tool error — neither ever inspects
the return code; both return the value built from stdout. -/
theorem name_filter_ignore_returncode :
    name_adapter [str "9606"] ⟨1, [], str "boom"⟩ = ⟨1, .ok []⟩ ∧
    (name_adapter [str "9606"] ⟨1, [], str "boom"⟩).outcome ≠ .cliError (str "boom") ∧
    filter_adapter [str "9606"] none none ⟨1, [], str "boom"⟩ = ⟨1, .ok []⟩ ∧
    (filter_adapter [str "9606"] none none ⟨1, [], str "boom"⟩).outcome ≠
      .cliError (str "boom") := by
  refine ⟨rfl, ?_, rfl, ?_⟩ <;> decide

/-- C4 amended: on a nonzero exit status the `list`, `lineage` (either
stage), `name2taxid` and `lca` adapters raise `TaxonKitCLIError`
carrying the failing process's stderr verbatim, whereas the `name` and
`filter` adapters never raise it — they ignore the return code
entirely. -/
theorem nonzero_exit_raises (ids names : List Str) (lids : LcaIds)
    (fs : FileSystem) (p q : ProcResult) (ht lt : Option Str) :
    (p.returncode ≠ 0 → pyJoin [','] ids ≠ [] →
      list_adapter ids none fs p = ⟨1, .cliError p.stderr⟩) ∧
    (p.returncode ≠ 0 → pyJoin ['\n'] ids ≠ [] →
      lineage_adapter ids p q = ⟨1, .cliError p.stderr⟩) ∧
    (p.returncode = 0 → q.returncode ≠ 0 → pyJoin ['\n'] ids ≠ [] →
      lineage_adapter ids p q = ⟨2, .cliError q.stderr⟩) ∧
    (p.returncode ≠ 0 → pyJoin ['\n'] names ≠ [] →
      name2taxid_adapter names p = ⟨1, .cliError p.stderr⟩) ∧
    (p.returncode ≠ 0 → lcaIdString lids ≠ [] →
      lca_adapter lids p = ⟨1, .cliError p.stderr⟩) ∧
    (∀ e, (name_adapter ids p).outcome ≠ .cliError e) ∧
    (∀ e, (filter_adapter ids ht lt p).outcome ≠ .cliError e) := by
  refine ⟨?_, ?_, ?_, ?_, ?_, ?_, ?_⟩
  · intro hrc hne
    simp [list_adapter, listRun, hne, hrc, pyTruthy]
  · intro hrc hne
    simp [lineage_adapter, hne, hrc]
  · intro hrc1 hrc2 hne
    simp [lineage_adapter, hne, hrc1, hrc2]
  · intro hrc hne
    simp [name2taxid_adapter, hne, hrc]
  · intro hrc hne
    simp [lca_adapter, hne, hrc]
  · intro e
    simp only [name_adapter]
    split
    · simp
    · simp
  · intro e
    simp only [filter_adapter]
    split
    · simp
    · split
      · simp
      · simp

/-- Witness for the amended C4: the `list` adapter at a concrete
nonempty input and a concrete failing process. -/
theorem nonzero_exit_raises_witness :
    list_adapter [str "1"] none fsEmpty ⟨1, [], str "err"⟩ = ⟨1, .cliError (str "err")⟩ :=
  (nonzero_exit_raises [str "1"] [] (.single []) fsEmpty ⟨1, [], str "err"⟩
    ⟨0, [], []⟩ none none).1 (by decide) (by decide)

/-! ### C5: empty input never starts a subprocess -/

/-- C5: with an empty identifier list, each of the `list`, `lineage`,
`name`, `filter` and `lca` adapters takes the warn-and-return-`None`
early exit with zero subprocess invocations, whatever the would-be
process results (for `filter`, provided the two rank bounds are not
both given, in which case the `ValueError` of C9 takes precedence). -/
theorem empty_input_no_subprocess (dd : Option Str) (fs : FileSystem)
    (p q : ProcResult) (ht lt : Option Str)
    (hfl : (ht.isSome && lt.isSome) = false) :
    list_adapter [] dd fs p = ⟨0, .noneReturn⟩ ∧
    lineage_adapter [] p q = ⟨0, .noneReturn⟩ ∧
    name_adapter [] p = ⟨0, .noneReturn⟩ ∧
    filter_adapter [] ht lt p = ⟨0, .noneReturn⟩ ∧
    lca_adapter (.single []) p = ⟨0, .noneReturn⟩ ∧
    lca_adapter (.multi []) p = ⟨0, .noneReturn⟩ := by
  refine ⟨rfl, rfl, rfl, ?_, rfl, rfl⟩
  have : ¬(ht.isSome = true ∧ lt.isSome = true) := by
    intro hh
    rw [hh.1, hh.2] at hfl
    simp at hfl
  simp [filter_adapter, this, pyJoin]

/-- Witness for C5 at concrete arguments. -/
theorem empty_input_no_subprocess_witness :
    list_adapter [] none fsEmpty ⟨0, [], []⟩ = ⟨0, .noneReturn⟩ ∧
    lineage_adapter [] ⟨0, [], []⟩ ⟨0, [], []⟩ = ⟨0, .noneReturn⟩ ∧
    name_adapter [] ⟨0, [], []⟩ = ⟨0, .noneReturn⟩ ∧
    filter_adapter [] none none ⟨0, [], []⟩ = ⟨0, .noneReturn⟩ ∧
    lca_adapter (.single []) ⟨0, [], []⟩ = ⟨0, .noneReturn⟩ ∧
    lca_adapter (.multi []) ⟨0, [], []⟩ = ⟨0, .noneReturn⟩ :=
  empty_input_no_subprocess none fsEmpty ⟨0, [], []⟩ ⟨0, [], []⟩ none none (by decide)

/-! ### C8: data-directory validation -/

/-- C8: `validate_data_dir` succeeds — returning the resolved real
path — exactly when the directory holds a `nodes.dmp` file of nonzero
size, and raises the dump-not-found error (carrying the path) otherwise;
in `list`, a caller-specified directory failing validation raises while
the argument list is being built, before any subprocess is started. -/
theorem data_dir_validation (fs : FileSystem) (path : Str) :
    (validate_data_dir fs path = .ok (fs.realpath path) ↔
      fs.isfile (osPathJoin path (str "nodes.dmp")) = true ∧
        fs.st_size (osPathJoin path (str "nodes.dmp")) ≠ 0) ∧
    (¬(fs.isfile (osPathJoin path (str "nodes.dmp")) = true ∧
        fs.st_size (osPathJoin path (str "nodes.dmp")) ≠ 0) →
      validate_data_dir fs path = .error path) ∧
    (∀ ids proc, path ≠ [] → validate_data_dir fs path = .error path →
      pyJoin [','] ids ≠ [] →
      list_adapter ids (some path) fs proc = ⟨0, .dumpNotFound path⟩) := by
  refine ⟨?_, ?_, ?_⟩
  · constructor
    · intro hok
      by_contra hcond
      have : validate_data_dir fs path = .error path := by
        simp only [validate_data_dir]
        rw [if_pos]
        rcases Decidable.not_and_iff_or_not.mp hcond with hf | hs
        · exact Or.inl (by simpa using hf)
        · exact Or.inr (by simpa using hs)
      rw [this] at hok
      exact Except.noConfusion hok
    · intro hcond
      simp only [validate_data_dir]
      have hnc : ¬(fs.isfile (osPathJoin path (str "nodes.dmp")) = false ∨
          fs.st_size (osPathJoin path (str "nodes.dmp")) = 0) := by
        push_neg
        exact ⟨by simp [hcond.1], hcond.2⟩
      rw [if_neg hnc]
  · intro hcond
    simp only [validate_data_dir]
    rw [if_pos]
    rcases Decidable.not_and_iff_or_not.mp hcond with hf | hs
    · exact Or.inl (by simpa using hf)
    · exact Or.inr (by simpa using hs)
  · intro ids proc hpath hval hne
    simp only [list_adapter, hne, if_neg hne]
    have htr : pyTruthy (some path) = true := by simp [pyTruthy, hpath]
    rw [if_pos htr]
    simp [hval]

/-- Witness for C8: a path on the empty filesystem fails validation and
makes `list` raise before any subprocess. -/
theorem data_dir_validation_witness :
    validate_data_dir fsEmpty (str "/tmp/tk") = .error (str "/tmp/tk") ∧
    list_adapter [str "1"] (some (str "/tmp/tk")) fsEmpty ⟨0, [], []⟩ =
      ⟨0, .dumpNotFound (str "/tmp/tk")⟩ :=
  ⟨(data_dir_validation fsEmpty (str "/tmp/tk")).2.1 (by decide),
   (data_dir_validation fsEmpty (str "/tmp/tk")).2.2 [str "1"] ⟨0, [], []⟩
     (by decide) ((data_dir_validation fsEmpty (str "/tmp/tk")).2.1 (by decide)) (by decide)⟩

/-! ### C9: conflicting rank bounds in filter -/

/-- C9: when both `higher_than` and `lower_than` are given, `filter`
raises `ValueError` immediately — the outcome does not depend on the
identifier list (which may be empty) and no subprocess is started. -/
theorem filter_bounds_conflict (ids : List Str) (ht lt : Option Str) (p : ProcResult)
    (h1 : ht.isSome = true) (h2 : lt.isSome = true) :
    filter_adapter ids ht lt p =
      ⟨0, .valueError (str "cannot specify \"higher_than\" and \"lower_than\" simultaneously")⟩ := by
  simp [filter_adapter, h1, h2]

/-- Witness for C9 with both bounds given and an empty identifier list. -/
theorem filter_bounds_conflict_witness :
    filter_adapter [] (some (str "genus")) (some (str "genus")) ⟨0, [], []⟩ =
      ⟨0, .valueError (str "cannot specify \"higher_than\" and \"lower_than\" simultaneously")⟩ :=
  filter_bounds_conflict [] (some (str "genus")) (some (str "genus")) ⟨0, [], []⟩
    (by decide) (by decide)

/-! ### C10: lca output handling -/

/-- C10: for nonempty input and a zero exit status, `lca` returns `None`
(or `[None]` per query under `multi`) when stdout strips to empty;
otherwise it takes, for each stripped stdout line, the integer second
tab-separated field, returning the list under `multi` and the single
integer when the output is a single line otherwise. -/
theorem lca_output_handling (ids : LcaIds) (p : ProcResult)
    (hne : lcaIdString ids ≠ []) (hrc : p.returncode = 0) :
    (pyStrip p.stdout = [] →
      lca_adapter ids p = ⟨1, .ok (match ids with
        | .multi ls => .listNone ls.length
        | .single _ => .noneV)⟩) ∧
    (∀ results, (pySplit '\n' (pyStrip p.stdout)).mapM parseLcaLine = some results →
      pyStrip p.stdout ≠ [] →
      (∀ ls, ids = .multi ls → lca_adapter ids p = ⟨1, .ok (.listInts results)⟩) ∧
      (∀ l r, ids = .single l → results = [r] → lca_adapter ids p = ⟨1, .ok (.intV r)⟩)) := by
  constructor
  · intro hempty
    cases ids with
    | single l => simp [lca_adapter, hne, hrc, hempty]
    | multi ls => simp [lca_adapter, hne, hrc, hempty]
  · intro results hres hnonempty
    have hres2 : List.mapM.loop parseLcaLine (pySplit '\n' (pyStrip p.stdout)) [] =
        some results := by
      simpa [List.mapM] using hres
    constructor
    · intro ls hids
      subst hids
      simp [lca_adapter, hne, hrc, hnonempty, hres2]
    · intro l r hids hr1
      subst hids
      subst hr1
      simp [lca_adapter, hne, hrc, hnonempty, hres2]

/-- Witness for C10: a single query with one two-field output line. -/
theorem lca_output_handling_witness :
    lca_adapter (.single [str "1", str "2"]) ⟨0, str "1 2\t9606\n", []⟩ =
      ⟨1, .ok (.intV 9606)⟩ :=
  ((lca_output_handling (.single [str "1", str "2"]) ⟨0, str "1 2\t9606\n", []⟩
    (by decide) (by decide)).2 [(9606 : Int)] (by decide) (by decide)).2
    [str "1", str "2"] 9606 rfl rfl

/-! ### C6: the serialization round-trip

The lemmas below show that the `json.dumps(..., indent=4)` model emits
text the `json.loads` model maps back to the same tree: first that
string escaping is inverted by the string-body parser, then that the
value parser consumes a serialized tree exactly, by structural induction
with a fuel budget bounded by the tree's size. -/

theorem skipWs_cons_not {c : Char} (h : isJsonWs c = false) (l : Str) :
    skipWs (c :: l) = c :: l := by
  simp [skipWs, List.dropWhile_cons, h]

theorem skipWs_ws_cons {c : Char} (h : isJsonWs c = true) (l : Str) :
    skipWs (c :: l) = skipWs l := by
  simp [skipWs, List.dropWhile_cons, h]

theorem skipWs_nspaces (n : Nat) (l : Str) : skipWs (nspaces n ++ l) = skipWs l := by
  induction n with
  | zero => simp [nspaces]
  | succ m ih =>
    rw [nspaces, List.replicate_succ, List.cons_append, skipWs_ws_cons (by decide)]
    exact ih

theorem skipWs_nil : skipWs [] = [] := rfl

theorem hexDigitVal_toHexDigit (n : Nat) (h : n < 16) :
    hexDigitVal (toHexDigit n) = some n := by
  revert h
  revert n
  decide

theorem consStr_some (c : Char) (s rest : Str) :
    consStr c (some (s, rest)) = some (c :: s, rest) := rfl

/-- Parsing one escape-encoded character prepends it and continues. -/
theorem parseStrBody_enc (c : Char) (r : Str) :
    parseStrBody (encChar c ++ r) = consStr c (parseStrBody r) := by
  by_cases h1 : c = '"'
  · subst h1
    rw [show encChar '"' ++ r = '\\' :: '"' :: r from rfl, parseStrBody.eq_def]
    simp [escChar]
  · by_cases h2 : c = '\\'
    · subst h2
      rw [show encChar '\\' ++ r = '\\' :: '\\' :: r from rfl, parseStrBody.eq_def]
      simp [escChar]
    · by_cases h3 : c = '\n'
      · subst h3
        rw [show encChar '\n' ++ r = '\\' :: 'n' :: r from rfl, parseStrBody.eq_def]
        simp [escChar]
      · by_cases h4 : c = '\t'
        · subst h4
          rw [show encChar '\t' ++ r = '\\' :: 't' :: r from rfl, parseStrBody.eq_def]
          simp [escChar]
        · by_cases h5 : c = '\r'
          · subst h5
            rw [show encChar '\r' ++ r = '\\' :: 'r' :: r from rfl, parseStrBody.eq_def]
            simp [escChar]
          · by_cases h6 : c.toNat < 32
            · have hdiv : c.toNat / 16 < 16 := by omega
              have hmod : c.toNat % 16 < 16 := Nat.mod_lt _ (by omega)
              have henc : encChar c ++ r =
                  '\\' :: 'u' :: '0' :: '0' :: toHexDigit (c.toNat / 16) ::
                    toHexDigit (c.toNat % 16) :: r := by
                simp [encChar, h1, h2, h3, h4, h5, h6]
              rw [henc, parseStrBody.eq_def]
              have h0 : hexDigitVal '0' = some 0 := by decide
              simp only [hexVal4, h0, hexDigitVal_toHexDigit _ hdiv,
                hexDigitVal_toHexDigit _ hmod, Option.some_bind]
              norm_num
              have harith : (c.toNat / 16) * 16 + c.toNat % 16 = c.toNat := by omega
              rw [harith, Char.ofNat_toNat]
              simp
            · have henc : encChar c ++ r = c :: r := by
                simp [encChar, h1, h2, h3, h4, h5, h6]
              rw [henc, parseStrBody.eq_def]
              simp only [if_neg h1, if_neg h2, if_neg h6]

/-- Parsing a serialized string body stops at the closing quote and
recovers the original string. -/
theorem parseStrBody_encStr (s : Str) : ∀ rest : Str,
    parseStrBody (encStr s ++ '"' :: rest) = some (s, rest) := by
  induction s with
  | nil =>
    intro rest
    rw [show encStr [] ++ '"' :: rest = '"' :: rest from rfl, parseStrBody.eq_def]
    simp
  | cons c s ih =>
    intro rest
    rw [encStr, List.flatMap_cons, List.append_assoc, ← encStr, parseStrBody_enc, ih]
    rfl

theorem parseVal_step (fuel : Nat) (l : Str) :
    parseVal (fuel + 1) l =
      (match skipWs l with
       | [] => none
       | c :: rest =>
         if c = lbrace then
           match skipWs rest with
           | [] => none
           | d :: rest2 => if d = rbrace then some (.nil, rest2) else parseMems fuel rest
         else none) := by
  rw [parseVal]

theorem parseMems_step (fuel : Nat) (l : Str) :
    parseMems (fuel + 1) l =
      (match skipWs l with
       | [] => none
       | c :: rest =>
         if c = '"' then
           match parseStrBody rest with
           | none => none
           | some (k, rest2) =>
             match skipWs rest2 with
             | [] => none
             | d :: rest3 =>
               if d = ':' then
                 match parseVal fuel rest3 with
                 | none => none
                 | some (v, rest4) =>
                   match skipWs rest4 with
                   | [] => none
                   | e :: rest5 =>
                     if e = ',' then
                       match parseMems fuel rest5 with
                       | some (t, rest6) => some (.cons k v t, rest6)
                       | none => none
                     else if e = rbrace then some (.cons k v .nil, rest5)
                     else none
               else none
         else none) := by
  rw [parseMems]

theorem parseVal_ws_cons {c : Char} (h : isJsonWs c = true) (fuel : Nat) (l : Str) :
    parseVal fuel (c :: l) = parseVal fuel l := by
  cases fuel with
  | zero => rfl
  | succ f => rw [parseVal_step, parseVal_step, skipWs_ws_cons h]

theorem parseMems_ws_cons {c : Char} (h : isJsonWs c = true) (fuel : Nat) (l : Str) :
    parseMems fuel (c :: l) = parseMems fuel l := by
  cases fuel with
  | zero => rfl
  | succ f => rw [parseMems_step, parseMems_step, skipWs_ws_cons h]

theorem dumpsItems_cons (lvl : Nat) (k : Str) (child rest : TaxTree) :
    dumpsItems lvl (.cons k child rest) =
      nspaces (4 * lvl) ++ dumpKey k ++ ':' :: ' ' ::
        (dumpsValAt lvl child ++ dumpsSep lvl rest) := by
  cases child <;> cases rest <;> rfl

theorem parse_dumps (t : TaxTree) :
    (∀ lvl fuel rest, 2 * size t + 2 ≤ fuel →
      parseVal fuel (dumpsValAt lvl t ++ rest) = some (t, rest)) ∧
    (∀ lvl fuel rest, 2 * size t + 1 ≤ fuel → t ≠ .nil →
      parseMems fuel (dumpsItems (lvl + 1) t ++ '\n' :: (nspaces (4 * lvl) ++ rbrace :: rest)) =
        some (t, rest)) := by
  induction t with
  | nil =>
    refine ⟨?_, ?_⟩
    · intro lvl fuel rest hfuel
      obtain ⟨f, rfl⟩ : ∃ f, fuel = f + 1 := ⟨fuel - 1, by omega⟩
      have h2 : skipWs (rbrace :: rest) = rbrace :: rest := skipWs_cons_not (by decide) _
      rw [parseVal_step,
        show dumpsValAt lvl TaxTree.nil ++ rest = lbrace :: rbrace :: rest from rfl,
        skipWs_cons_not (by decide)]
      simp [h2]
    · intro lvl fuel rest hfuel hne
      exact absurd rfl hne
  | cons k c r ihc ihr =>
    have hQ : ∀ lvl fuel rest, 2 * size (.cons k c r) + 1 ≤ fuel →
        parseMems fuel (dumpsItems (lvl + 1) (.cons k c r) ++
          '\n' :: (nspaces (4 * lvl) ++ rbrace :: rest)) = some (.cons k c r, rest) := by
      intro lvl fuel rest hfuel
      obtain ⟨f, rfl⟩ : ∃ f, fuel = f + 1 := ⟨fuel - 1, by omega⟩
      have hsz : 2 * (1 + size c + size r) + 1 ≤ f + 1 := by
        simpa [size] using hfuel
      have hI : dumpsItems (lvl + 1) (.cons k c r) ++
            '\n' :: (nspaces (4 * lvl) ++ rbrace :: rest) =
          nspaces (4 * (lvl + 1)) ++ '"' ::
            (encStr k ++ '"' :: ':' :: ' ' ::
              (dumpsValAt (lvl + 1) c ++
                (dumpsSep (lvl + 1) r ++ '\n' :: (nspaces (4 * lvl) ++ rbrace :: rest)))) := by
        rw [dumpsItems_cons, dumpKey]
        simp [List.append_assoc]
      rw [parseMems_step, hI]
      have hsk : skipWs (nspaces (4 * (lvl + 1)) ++ '"' ::
            (encStr k ++ '"' :: ':' :: ' ' ::
              (dumpsValAt (lvl + 1) c ++
                (dumpsSep (lvl + 1) r ++ '\n' :: (nspaces (4 * lvl) ++ rbrace :: rest))))) =
          '"' :: (encStr k ++ '"' :: ':' :: ' ' ::
            (dumpsValAt (lvl + 1) c ++
              (dumpsSep (lvl + 1) r ++ '\n' :: (nspaces (4 * lvl) ++ rbrace :: rest)))) := by
        rw [skipWs_nspaces, skipWs_cons_not (by decide)]
      rw [hsk]
      simp only [if_pos rfl, parseStrBody_encStr]
      rw [skipWs_cons_not (by decide)]
      simp only [if_pos rfl]
      rw [parseVal_ws_cons (by decide)]
      rw [(ihc.1) (lvl + 1) f _ (by omega)]
      simp only
      cases r with
      | nil =>
        rw [show dumpsSep (lvl + 1) TaxTree.nil ++
              '\n' :: (nspaces (4 * lvl) ++ rbrace :: rest) =
            '\n' :: (nspaces (4 * lvl) ++ rbrace :: rest) from rfl]
        rw [skipWs_ws_cons (by decide), skipWs_nspaces, skipWs_cons_not (by decide)]
        simp [show ¬(rbrace = ',') from by decide]
      | cons k2 c2 r2 =>
        rw [show dumpsSep (lvl + 1) (.cons k2 c2 r2) ++
              '\n' :: (nspaces (4 * lvl) ++ rbrace :: rest) =
            ',' :: '\n' :: (dumpsItems (lvl + 1) (.cons k2 c2 r2) ++
              '\n' :: (nspaces (4 * lvl) ++ rbrace :: rest)) from by
          simp [dumpsSep]]
        rw [skipWs_cons_not (by decide)]
        simp only [if_pos rfl]
        rw [parseMems_ws_cons (by decide)]
        rw [(ihr.2) lvl f rest (by simp [size] at hsz ⊢; omega) (by simp)]
        simp
    refine ⟨?_, fun lvl fuel rest hf _ => hQ lvl fuel rest hf⟩
    intro lvl fuel rest hfuel
    obtain ⟨f, rfl⟩ : ∃ f, fuel = f + 1 := ⟨fuel - 1, by omega⟩
    have hV : dumpsValAt lvl (.cons k c r) ++ rest =
        lbrace :: '\n' :: (dumpsItems (lvl + 1) (.cons k c r) ++
          '\n' :: (nspaces (4 * lvl) ++ rbrace :: rest)) := by
      simp [dumpsValAt, List.append_assoc]
    rw [parseVal_step, hV, skipWs_cons_not (by decide)]
    simp only [if_pos rfl]
    have hsk2 : skipWs ('\n' :: (dumpsItems (lvl + 1) (.cons k c r) ++
          '\n' :: (nspaces (4 * lvl) ++ rbrace :: rest))) =
        '"' :: (encStr k ++ '"' :: ':' :: ' ' ::
          (dumpsValAt (lvl + 1) c ++
            (dumpsSep (lvl + 1) r ++ '\n' :: (nspaces (4 * lvl) ++ rbrace :: rest)))) := by
      rw [skipWs_ws_cons (by decide)]
      rw [show dumpsItems (lvl + 1) (.cons k c r) ++
            '\n' :: (nspaces (4 * lvl) ++ rbrace :: rest) =
          nspaces (4 * (lvl + 1)) ++ '"' ::
            (encStr k ++ '"' :: ':' :: ' ' ::
              (dumpsValAt (lvl + 1) c ++
                (dumpsSep (lvl + 1) r ++ '\n' :: (nspaces (4 * lvl) ++ rbrace :: rest)))) from by
        rw [dumpsItems_cons, dumpKey]
        simp [List.append_assoc]]
      rw [skipWs_nspaces, skipWs_cons_not (by decide)]
    rw [hsk2]
    simp only [show ¬('"' = rbrace) from by decide, if_neg]
    rw [parseMems_ws_cons (by decide)]
    exact hQ lvl f rest (by omega)



theorem dumps_length_bound (t : TaxTree) :
    (∀ lvl, 2 * size t + 2 ≤ (dumpsValAt lvl t).length) ∧
    (∀ lvl, t ≠ .nil → 2 * size t + 4 ≤ (dumpsItems lvl t).length) := by
  induction t with
  | nil =>
    refine ⟨?_, ?_⟩
    · intro lvl
      simp [dumpsValAt, size]
    · intro lvl h
      exact absurd rfl h
  | cons k c r ihc ihr =>
    have hitems : ∀ lvl, 2 * size (.cons k c r) + 4 ≤ (dumpsItems lvl (.cons k c r)).length := by
      intro lvl
      rw [dumpsItems_cons]
      have hv := ihc.1 lvl
      cases r with
      | nil =>
        simp only [dumpsSep, dumpKey, List.length_append, List.length_cons, size,
          List.append_nil] at *
        omega
      | cons k2 c2 r2 =>
        have hr := ihr.2 lvl (by simp)
        simp only [dumpsSep, dumpKey, List.length_append, List.length_cons, size] at *
        omega
    refine ⟨?_, fun lvl _ => hitems lvl⟩
    intro lvl
    have hi := hitems (lvl + 1)
    simp only [dumpsValAt, List.length_append, List.length_cons, size] at *
    omega

theorem loads_dumps (t : TaxTree) (h : treeNodup t = true) : loads (dumps t) = some t := by
  have hlen : 2 * size t + 2 ≤ (dumps t).length + 1 := by
    have hb := (dumps_length_bound t).1 0
    rw [dumps]
    omega
  have hp := (parse_dumps t).1 0 ((dumps t).length + 1) [] hlen
  rw [List.append_nil] at hp
  simp only [loads]
  rw [show dumpsValAt 0 t = dumps t from rfl] at hp
  rw [hp]
  simp [h, skipWs]

theorem loads_nodup {s : Str} {t : TaxTree} (h : loads s = some t) :
    treeNodup t = true := by
  simp only [loads] at h
  split at h
  · rename_i v rest heq
    split at h
    · rename_i hcond
      have : v = t := by
        simpa using h
      rw [← this]
      exact hcond.2
    · exact absurd h (by simp)
  · exact absurd h (by simp)

/-- C6: a tree result built from JSON text `T` serializes, via
`__str__` (`json.dumps(self._data, indent=4)`), to text whose parse
equals the parse of `T` — the round trip preserves the canonical form
(whitespace-insensitive equality).  `toString` is a pure function of
the wrapped data, with no side effects, by construction. -/
theorem tostring_roundtrip (T : Str) (r : ListResult)
    (h : ListResult.init? T = some r) :
    loads (ListResult.toString r) = loads T := by
  have hT : loads T = some r._data := by
    simp only [ListResult.init?] at h
    cases hl : loads T with
    | none => rw [hl] at h; simp at h
    | some t =>
      rw [hl] at h
      have h2 : ListResult.mk t = r := by simpa using h
      rw [← h2]
  have hnd : treeNodup r._data = true := loads_nodup hT
  rw [ListResult.toString, loads_dumps _ hnd, hT]

/-- Witness for C6 on a one-entry object text. -/
theorem tostring_roundtrip_witness :
    ListResult.init? jsonOne = some ⟨treeOne⟩ ∧
    loads (ListResult.toString ⟨treeOne⟩) = loads jsonOne :=
  ⟨by decide, tostring_roundtrip jsonOne ⟨treeOne⟩ (by decide)⟩

end Pytaxonkit
